import Mathlib

/-!
Shallow embedding of the table-driven Vietnamese input engine of
src/input_method/unikey_engine.rs, and verification of the frozen claims.

Modelling conventions.  The Rust engine stores a fixed array `buf` of
`KEY_BUFSIZE` characters together with a live count `keys`; here the live
prefix is a `List (Char × Bool)` pairing every on-screen character with its
lower-case bit (the Rust arrays `buf` and `lower_case`).  Rust `String`
outputs become `List Char`; the Rust field `keys_pushed` stores a byte
length, but the engine only ever compares it with 0, and byte length is 0
exactly when the character list is empty, so a character count is an
observationally equivalent model.  The result tables `bk`, `bw`, `bt` of
the source are initialised but never read by any routine (every
transformation hard-codes its target characters), so they are not
reproduced here.  Rust Unicode case predicates `is_lowercase`,
`is_uppercase`, `is_alphabetic`, `to_lowercase`, `to_uppercase` are
modelled on the character repertoire the engine works with: ASCII plus the
precomposed Vietnamese letters of its tables.
-/

set_option maxRecDepth 8000

set_option maxHeartbeats 1000000

namespace Vaixkey

def KEY_BUFSIZE : Nat := 40

def KEYS_MAINTAIN : Nat := 20

def MAX_AFTER_VOWEL : Nat := 2

def MAX_VOWEL_SEQUENCE : Nat := 3

def MAX_MODIFY_LENGTH : Nat := 6

/-- Input method types (`InputMethod` in the source). -/
inductive InputMethod
  | Telex
  | Vni
  | Viqr
deriving DecidableEq, Repr

/-- Key categories for Vietnamese input processing (`KeyCategory`). -/
inductive KeyCategory
  | NoCat
  | BreveMark
  | ToneMark
  | DoubleKey
  | ShortKey
  | VowelChar
  | Separator
  | VniDoubleMark
  | EscapeKey
  | SoftSeparator
deriving DecidableEq, Repr

/-- Character attributes for the DT table (`CharAttr`). -/
structure CharAttr where
  vowelIndex : Nat := 0
  isBreve : Bool := false
  toneIndex : Nat := 0
  dbcharIndex : Nat := 0
  macroIndex : Nat := 0
  isSeparator : Bool := false
  isSoftSep : Bool := false
  vniDoubleIndex : Nat := 0
  currentTone : Nat := 0
deriving DecidableEq, Repr

/-- Entry of a base vowel: `vowel_index` plus `dbchar_index`.  The source
first inserts the vowel with `dbchar_index = vowel_index` and then
overwrites `dbchar_index` for a, A (1), e, E (3), o, O (4); the final
attribute is recorded directly. -/
def vA (c : Char) (vi db : Nat) : Char × CharAttr :=
  (c, { vowelIndex := vi, dbcharIndex := db })

/-- Entry of a Vietnamese vowel: `(vowel_index, current_tone)`. -/
def vT (c : Char) (vi t : Nat) : Char × CharAttr :=
  (c, { vowelIndex := vi, currentTone := t })

/-- Entry of a Telex tone key. -/
def tK (c : Char) (t : Nat) : Char × CharAttr :=
  (c, { toneIndex := t })

/-- Entry of a separator. -/
def sepA (c : Char) : Char × CharAttr :=
  (c, { isSeparator := true })

/-- The DT character-attribute table of `init_dt_table`, with every
character listed once carrying its final attribute record. -/
def dtList : List (Char × CharAttr) :=
  [ vA 'a' 1 1, vA 'A' 1 1,
    vA 'e' 4 3, vA 'E' 4 3,
    vA 'i' 6 6, vA 'I' 6 6,
    vA 'o' 7 4, vA 'O' 7 4,
    vA 'u' 10 10, vA 'U' 10 10,
    vA 'y' 12 12, vA 'Y' 12 12,
    vT 'â' 2 0, vT 'ấ' 2 1, vT 'ầ' 2 2, vT 'ẩ' 2 3, vT 'ẫ' 2 4, vT 'ậ' 2 5,
    vT 'Â' 2 0, vT 'Ấ' 2 1, vT 'Ầ' 2 2, vT 'Ẩ' 2 3, vT 'Ẫ' 2 4, vT 'Ậ' 2 5,
    vT 'ă' 3 0, vT 'ắ' 3 1, vT 'ằ' 3 2, vT 'ẳ' 3 3, vT 'ẵ' 3 4, vT 'ặ' 3 5,
    vT 'Ă' 3 0, vT 'Ắ' 3 1, vT 'Ằ' 3 2, vT 'Ẳ' 3 3, vT 'Ẵ' 3 4, vT 'Ặ' 3 5,
    vT 'ê' 5 0, vT 'ế' 5 1, vT 'ề' 5 2, vT 'ể' 5 3, vT 'ễ' 5 4, vT 'ệ' 5 5,
    vT 'Ê' 5 0, vT 'Ế' 5 1, vT 'Ề' 5 2, vT 'Ể' 5 3, vT 'Ễ' 5 4, vT 'Ệ' 5 5,
    vT 'ô' 8 0, vT 'ố' 8 1, vT 'ồ' 8 2, vT 'ổ' 8 3, vT 'ỗ' 8 4, vT 'ộ' 8 5,
    vT 'Ô' 8 0, vT 'Ố' 8 1, vT 'Ồ' 8 2, vT 'Ổ' 8 3, vT 'Ỗ' 8 4, vT 'Ộ' 8 5,
    vT 'ơ' 9 0, vT 'ớ' 9 1, vT 'ờ' 9 2, vT 'ở' 9 3, vT 'ỡ' 9 4, vT 'ợ' 9 5,
    vT 'Ơ' 9 0, vT 'Ớ' 9 1, vT 'Ờ' 9 2, vT 'Ở' 9 3, vT 'Ỡ' 9 4, vT 'Ợ' 9 5,
    vT 'ư' 11 0, vT 'ứ' 11 1, vT 'ừ' 11 2, vT 'ử' 11 3, vT 'ữ' 11 4, vT 'ự' 11 5,
    vT 'Ư' 11 0, vT 'Ứ' 11 1, vT 'Ừ' 11 2, vT 'Ử' 11 3, vT 'Ữ' 11 4, vT 'Ự' 11 5,
    vT 'á' 1 1, vT 'à' 1 2, vT 'ả' 1 3, vT 'ã' 1 4, vT 'ạ' 1 5,
    vT 'Á' 1 1, vT 'À' 1 2, vT 'Ả' 1 3, vT 'Ã' 1 4, vT 'Ạ' 1 5,
    vT 'é' 4 1, vT 'è' 4 2, vT 'ẻ' 4 3, vT 'ẽ' 4 4, vT 'ẹ' 4 5,
    vT 'É' 4 1, vT 'È' 4 2, vT 'Ẻ' 4 3, vT 'Ẽ' 4 4, vT 'Ẹ' 4 5,
    vT 'í' 6 1, vT 'ì' 6 2, vT 'ỉ' 6 3, vT 'ĩ' 6 4, vT 'ị' 6 5,
    vT 'Í' 6 1, vT 'Ì' 6 2, vT 'Ỉ' 6 3, vT 'Ĩ' 6 4, vT 'Ị' 6 5,
    vT 'ó' 7 1, vT 'ò' 7 2, vT 'ỏ' 7 3, vT 'õ' 7 4, vT 'ọ' 7 5,
    vT 'Ó' 7 1, vT 'Ò' 7 2, vT 'Ỏ' 7 3, vT 'Õ' 7 4, vT 'Ọ' 7 5,
    vT 'ú' 10 1, vT 'ù' 10 2, vT 'ủ' 10 3, vT 'ũ' 10 4, vT 'ụ' 10 5,
    vT 'Ú' 10 1, vT 'Ù' 10 2, vT 'Ủ' 10 3, vT 'Ũ' 10 4, vT 'Ụ' 10 5,
    vT 'ý' 12 1, vT 'ỳ' 12 2, vT 'ỷ' 12 3, vT 'ỹ' 12 4, vT 'ỵ' 12 5,
    vT 'Ý' 12 1, vT 'Ỳ' 12 2, vT 'Ỷ' 12 3, vT 'Ỹ' 12 4, vT 'Ỵ' 12 5,
    tK 's' 1, tK 'S' 1, tK 'f' 2, tK 'F' 2, tK 'r' 3, tK 'R' 3,
    tK 'x' 4, tK 'X' 4, tK 'j' 5, tK 'J' 5,
    ('w', { isBreve := true, macroIndex := 1 }),
    ('W', { isBreve := true, macroIndex := 1 }),
    ('d', { dbcharIndex := 2 }), ('D', { dbcharIndex := 2 }),
    sepA ' ', sepA '\n', sepA '\r', sepA '\t', sepA '.', sepA ',', sepA ';',
    sepA ':', sepA '!', sepA '?', sepA '(', sepA ')', sepA '[', sepA ']',
    sepA (Char.ofNat 123), sepA (Char.ofNat 125), sepA '<', sepA '>',
    sepA '/', sepA '\\', sepA (Char.ofNat 34), sepA (Char.ofNat 39),
    sepA '-', sepA '_', sepA '+', sepA '=', sepA '@', sepA '#', sepA '$',
    sepA '%', sepA '^', sepA '&', sepA '*', sepA '|', sepA (Char.ofNat 96),
    sepA '~', sepA '0', sepA '1', sepA '2', sepA '3', sepA '4', sepA '5',
    sepA '6', sepA '7', sepA '8', sepA '9',
    ('đ', { dbcharIndex := 2 }), ('Đ', { dbcharIndex := 2 }) ]

/-- Lookup in the DT table; unknown characters get the all-default
attribute record (`unwrap_or_default`). -/
def dtAttr (c : Char) : CharAttr :=
  ((dtList.find? (fun p => p.1 == c)).map Prod.snd).getD {}

/-- BD table of `init_bd_table`:
`bd[family - 1] = [acute, grave, hook, tilde, dot, base]`. -/
def bd : List (List Char) :=
  [ ['á', 'à', 'ả', 'ã', 'ạ', 'a'],
    ['ấ', 'ầ', 'ẩ', 'ẫ', 'ậ', 'â'],
    ['ắ', 'ằ', 'ẳ', 'ẵ', 'ặ', 'ă'],
    ['é', 'è', 'ẻ', 'ẽ', 'ẹ', 'e'],
    ['ế', 'ề', 'ể', 'ễ', 'ệ', 'ê'],
    ['í', 'ì', 'ỉ', 'ĩ', 'ị', 'i'],
    ['ó', 'ò', 'ỏ', 'õ', 'ọ', 'o'],
    ['ố', 'ồ', 'ổ', 'ỗ', 'ộ', 'ô'],
    ['ớ', 'ờ', 'ở', 'ỡ', 'ợ', 'ơ'],
    ['ú', 'ù', 'ủ', 'ũ', 'ụ', 'u'],
    ['ứ', 'ừ', 'ử', 'ữ', 'ự', 'ư'],
    ['ý', 'ỳ', 'ỷ', 'ỹ', 'ỵ', 'y'] ]

/-- `self.bd[i][j]` of the source. -/
def bdGet (i j : Nat) : Char :=
  (bd.getD i []).getD j '\x00'

/-- Lower/upper pairs of the precomposed Vietnamese letters handled by the
engine; used to model Rust Unicode case operations on the engine's
repertoire. -/
def vietLowerUpper : List (Char × Char) :=
  [ ('â', 'Â'), ('ấ', 'Ấ'), ('ầ', 'Ầ'), ('ẩ', 'Ẩ'), ('ẫ', 'Ẫ'), ('ậ', 'Ậ'),
    ('ă', 'Ă'), ('ắ', 'Ắ'), ('ằ', 'Ằ'), ('ẳ', 'Ẳ'), ('ẵ', 'Ẵ'), ('ặ', 'Ặ'),
    ('ê', 'Ê'), ('ế', 'Ế'), ('ề', 'Ề'), ('ể', 'Ể'), ('ễ', 'Ễ'), ('ệ', 'Ệ'),
    ('ô', 'Ô'), ('ố', 'Ố'), ('ồ', 'Ồ'), ('ổ', 'Ổ'), ('ỗ', 'Ỗ'), ('ộ', 'Ộ'),
    ('ơ', 'Ơ'), ('ớ', 'Ớ'), ('ờ', 'Ờ'), ('ở', 'Ở'), ('ỡ', 'Ỡ'), ('ợ', 'Ợ'),
    ('ư', 'Ư'), ('ứ', 'Ứ'), ('ừ', 'Ừ'), ('ử', 'Ử'), ('ữ', 'Ữ'), ('ự', 'Ự'),
    ('á', 'Á'), ('à', 'À'), ('ả', 'Ả'), ('ã', 'Ã'), ('ạ', 'Ạ'),
    ('é', 'É'), ('è', 'È'), ('ẻ', 'Ẻ'), ('ẽ', 'Ẽ'), ('ẹ', 'Ẹ'),
    ('í', 'Í'), ('ì', 'Ì'), ('ỉ', 'Ỉ'), ('ĩ', 'Ĩ'), ('ị', 'Ị'),
    ('ó', 'Ó'), ('ò', 'Ò'), ('ỏ', 'Ỏ'), ('õ', 'Õ'), ('ọ', 'Ọ'),
    ('ú', 'Ú'), ('ù', 'Ù'), ('ủ', 'Ủ'), ('ũ', 'Ũ'), ('ụ', 'Ụ'),
    ('ý', 'Ý'), ('ỳ', 'Ỳ'), ('ỷ', 'Ỷ'), ('ỹ', 'Ỹ'), ('ỵ', 'Ỵ'),
    ('đ', 'Đ') ]

/-- Model of Rust `c.to_lowercase().next().unwrap_or(c)` on the engine's
repertoire: ASCII via `Char.toLower`, Vietnamese letters via the table. -/
def toLowerV (c : Char) : Char :=
  match vietLowerUpper.find? (fun p => p.2 == c) with
  | some p => p.1
  | none => c.toLower

/-- Model of Rust `c.to_uppercase().next().unwrap_or(c)` on the engine's
repertoire. -/
def toUpperV (c : Char) : Char :=
  match vietLowerUpper.find? (fun p => p.1 == c) with
  | some p => p.2
  | none => c.toUpper

/-- Model of Rust `c.is_lowercase()` on the engine's repertoire. -/
def isLowerV (c : Char) : Bool :=
  c.isLower || vietLowerUpper.any (fun p => p.1 == c)

/-- Model of Rust `c.is_uppercase()` on the engine's repertoire. -/
def isUpperV (c : Char) : Bool :=
  c.isUpper || vietLowerUpper.any (fun p => p.2 == c)

/-- Model of Rust `c.is_alphabetic()` on the engine's repertoire. -/
def isAlphaV (c : Char) : Bool :=
  c.isAlpha || vietLowerUpper.any (fun p => p.1 == c || p.2 == c)

/-- The live buffer: on-screen character plus lower-case bit per slot. -/
abbrev Buf := List (Char × Bool)

/-- `self.buf[i]` (only ever read at indices below `keys`). -/
def bufGetC (b : Buf) (i : Nat) : Char :=
  ((b.get? i).map Prod.fst).getD '\x00'

/-- `self.lower_case[i]`. -/
def bufLowerBit (b : Buf) (i : Nat) : Bool :=
  ((b.get? i).map Prod.snd).getD true

/-- `self.buf[i] = c` leaving `lower_case[i]` unchanged. -/
def setCharAt (b : Buf) (i : Nat) (c : Char) : Buf :=
  b.set i (c, bufLowerBit b i)

/-- `rebuild_output(from_pos)`: the characters of `buf[from_pos..keys]`. -/
def rebuildFrom (b : Buf) (i : Nat) : List Char :=
  (b.drop i).map Prod.fst

/-- `throw_buf`: when more than `KEYS_MAINTAIN` keys are held, keep only
the last `KEYS_MAINTAIN` of them. -/
def throwBuf (b : Buf) : Buf :=
  if b.length > KEYS_MAINTAIN then b.drop (b.length - KEYS_MAINTAIN) else b

/-- `put_char` on the buffer: compact first when the buffer is full, then
append `(c, is_lower)` at the tail. -/
def putCharB (b : Buf) (c : Char) (isLower : Bool) : Buf :=
  (if b.length ≥ KEY_BUFSIZE then throwBuf b else b) ++ [(c, isLower)]

/-- The engine state (`UnikeyEngine`), with the defaults of
`UnikeyEngine::new`.  The scratch output fields `keys_pushed`, `backs`,
`output_buffer` are part of the state exactly as in the source. -/
structure UnikeyEngine where
  buf : Buf := []
  lastWConverted : Bool := false
  lastIsEscape : Bool := false
  tempVietOff : Bool := false
  inputMethod : InputMethod := InputMethod.Telex
  vietnameseMode : Bool := true
  freeMarking : Bool := true
  toneNextToVowel : Bool := false
  modernStyle : Bool := true
  keysPushed : Nat := 0
  backs : Nat := 0
  outputBuffer : List Char := []
deriving DecidableEq, Repr

/-- `UnikeyEngine::new()` (after `init_tables`, which only fills the
static tables modelled above). -/
def UnikeyEngine.new : UnikeyEngine := {}

/-- `self.keys`. -/
def UnikeyEngine.keys (e : UnikeyEngine) : Nat :=
  e.buf.length

/-- `clear_buf`. -/
def clearBuf (e : UnikeyEngine) : UnikeyEngine :=
  { e with buf := [], lastWConverted := false, lastIsEscape := false,
           tempVietOff := false, outputBuffer := [] }

/-- `key_category`; it reads only `self.input_method` besides its
argument, so it is modelled as a function of the input method. -/
def keyCategory (im : InputMethod) (c : Char) : KeyCategory :=
  let attr := dtAttr c
  if attr.isBreve = true ∧ im = InputMethod.Telex then
    KeyCategory.BreveMark
  else if attr.toneIndex > 0 ∧ im = InputMethod.Telex then
    KeyCategory.ToneMark
  else if attr.dbcharIndex > 0 ∧ im = InputMethod.Telex then
    KeyCategory.DoubleKey
  else if attr.macroIndex > 0 then
    KeyCategory.ShortKey
  else if attr.isSeparator = true then
    KeyCategory.Separator
  else if attr.vniDoubleIndex > 0 ∧ im = InputMethod.Vni then
    KeyCategory.VniDoubleMark
  else if c = '\\' ∧ im = InputMethod.Viqr then
    KeyCategory.EscapeKey
  else if attr.isSoftSep = true then
    KeyCategory.SoftSeparator
  else
    KeyCategory.NoCat

/-- `put_char` on the engine. -/
def putChar (e : UnikeyEngine) (c : Char) (isLower : Bool) : UnikeyEngine :=
  { e with buf := putCharB e.buf c isLower }

/-- `process_backspace`. -/
def processBackspace (e : UnikeyEngine) : UnikeyEngine :=
  if e.buf.length > 0 then { e with buf := e.buf.dropLast, backs := 1 } else e

/-- `get_base_vowel`. -/
def getBaseVowel (c : Char) : Char :=
  let attr := dtAttr c
  if attr.vowelIndex = 0 ∨ attr.vowelIndex > 12 then c
  else
    let base := bdGet (attr.vowelIndex - 1) 5
    if isUpperV c then toUpperV base else base

/-- `apply_tone_to_base`. -/
def applyToneToBase (base : Char) (tone : Nat) : Char :=
  let attr := dtAttr base
  if attr.vowelIndex = 0 ∨ attr.vowelIndex > 12 ∨ tone = 0 ∨ tone > 5 then
    base
  else
    let toned := bdGet (attr.vowelIndex - 1) (tone - 1)
    if isUpperV base then toUpperV toned else toned

/-- Result of the leftward scan of `put_breve_mark`. -/
inductive BreveScan
  | noHit
  | undo (i : Nat) (baseVowel : Char)
  | apply (i : Nat) (newChar : Char)
deriving DecidableEq, Repr

/-- Target of the breve/horn transformation for a base vowel, cased by the
typed key (`is_lower`); `none` models the `continue` arm. -/
def breveTarget (isLower : Bool) (baseLower : Char) : Option Char :=
  if baseLower = 'a' then some (if isLower then 'ă' else 'Ă')
  else if baseLower = 'o' then some (if isLower then 'ơ' else 'Ơ')
  else if baseLower = 'u' then some (if isLower then 'ư' else 'Ư')
  else none

/-- One position of the `put_breve_mark` scan: act at `i`, break on a
separator, else continue with `next`. -/
def breveStep (b : Buf) (isLower : Bool) (i : Nat) (next : BreveScan) :
    BreveScan :=
  let ch := bufGetC b i
  let attr := dtAttr ch
  if attr.vowelIndex > 0 then
    let baseV := getBaseVowel ch
    match breveTarget isLower (toLowerV baseV) with
    | none => next
    | some target =>
      if ch = target then BreveScan.undo i baseV
      else
        BreveScan.apply i
          (if attr.currentTone > 0 then applyToneToBase target attr.currentTone
           else target)
  else if attr.isSeparator || attr.isSoftSep then BreveScan.noHit
  else next

/-- The `put_breve_mark` scan from position `i` down to `lm`
(`left_most`); entered with `lm ≤ i`. -/
def breveScan (b : Buf) (isLower : Bool) (lm : Nat) : Nat → BreveScan
  | 0 => breveStep b isLower 0 BreveScan.noHit
  | i + 1 =>
    breveStep b isLower (i + 1)
      (if i + 1 ≤ lm then BreveScan.noHit else breveScan b isLower lm i)

/-- `breveScan` result positions, for stating its range. -/
def breveScanPos : BreveScan → Option Nat
  | BreveScan.noHit => none
  | BreveScan.undo i _ => some i
  | BreveScan.apply i _ => some i

/-- `left_most` of the `put_breve_mark` scan: 0 under free marking, the
tail slot otherwise, clipped to the last `MAX_MODIFY_LENGTH` slots. -/
def breveLM (keysLen : Nat) (free : Bool) : Nat :=
  max (if free then 0 else keysLen - 1) (keysLen - MAX_MODIFY_LENGTH)

/-- `put_breve_mark` (w/W in Telex). -/
def putBreveMark (e : UnikeyEngine) (c : Char) (isLower : Bool) :
    UnikeyEngine :=
  if e.buf.length = 0 then e
  else
    let keys := e.buf.length
    match breveScan e.buf isLower (breveLM keys e.freeMarking) (keys - 1) with
    | BreveScan.noHit => e
    | BreveScan.undo i baseV =>
      let b1 := setCharAt e.buf i baseV
      let e1 := { e with backs := keys - i, buf := b1,
                         outputBuffer := rebuildFrom b1 i ++ [c] }
      { putChar e1 c isLower with tempVietOff := true }
    | BreveScan.apply i newChar =>
      let b1 := setCharAt e.buf i newChar
      { e with backs := keys - i, buf := b1,
               outputBuffer := rebuildFrom b1 i,
               keysPushed := (rebuildFrom b1 i).length }

/-- Target of the double-char transformation (`aa`, `ee`, `oo`, `dd`). -/
def doubleTarget (cLower : Char) (isLower : Bool) : Option Char :=
  if cLower = 'a' then some (if isLower then 'â' else 'Â')
  else if cLower = 'e' then some (if isLower then 'ê' else 'Ê')
  else if cLower = 'o' then some (if isLower then 'ô' else 'Ô')
  else if cLower = 'd' then some (if isLower then 'đ' else 'Đ')
  else none

/-- `double_char`. -/
def doubleChar (e : UnikeyEngine) (c : Char) (isLower : Bool) :
    UnikeyEngine :=
  if e.buf.length = 0 then e
  else
    let keys := e.buf.length
    let lastChar := bufGetC e.buf (keys - 1)
    let lastLower := toLowerV lastChar
    let cLower := toLowerV c
    if lastLower ≠ cLower then e
    else
      match doubleTarget cLower isLower with
      | none => e
      | some target =>
        let lastAttr := dtAttr lastChar
        if lastAttr.vowelIndex > 0 ∧ toLowerV (getBaseVowel lastChar) ≠ cLower
        then
          let original := if isLower then cLower else toUpperV cLower
          let e1 := { e with backs := 1,
                             buf := setCharAt e.buf (keys - 1) original,
                             outputBuffer := [original, c] }
          { putChar e1 c isLower with tempVietOff := true, keysPushed := 2 }
        else if toLowerV (getBaseVowel lastChar) = toLowerV target then
          let original :=
            if bufLowerBit e.buf (keys - 1) then cLower else toUpperV cLower
          let e1 := { e with backs := 1,
                             buf := setCharAt e.buf (keys - 1) original,
                             outputBuffer := [original, c] }
          { putChar e1 c isLower with tempVietOff := true, keysPushed := 2 }
        else
          let newChar :=
            if lastAttr.currentTone > 0 then
              applyToneToBase target lastAttr.currentTone
            else target
          { e with backs := 1, buf := setCharAt e.buf (keys - 1) newChar,
                   outputBuffer := [newChar], keysPushed := 1 }

/-- Telex tone slot selected by a tone key. -/
def toneIndexOf (c : Char) : Option Nat :=
  match toLowerV c with
  | 's' => some 1
  | 'f' => some 2
  | 'r' => some 3
  | 'x' => some 4
  | 'j' => some 5
  | _ => none

/-- Stop condition of the first `put_tone_mark` scan: separator, soft
separator, or vowel. -/
def toneStop (b : Buf) (i : Nat) : Bool :=
  let attr := dtAttr (bufGetC b i)
  attr.isSeparator || attr.isSoftSep || attr.vowelIndex > 0

/-- First scan of `put_tone_mark`: from `i` down to `lm`, the first
position satisfying `toneStop`; `none` when the scan runs past `lm`
(the source's `i < left_most`).  Entered with `lm ≤ i`. -/
def findVowelScan (b : Buf) (lm : Nat) : Nat → Option Nat
  | 0 => if toneStop b 0 then some 0 else none
  | i + 1 =>
    if toneStop b (i + 1) then some (i + 1)
    else if i + 1 ≤ lm then none
    else findVowelScan b lm i

/-- Stop condition of the vowel-run scan: non-vowel, or a letter outside
ASCII (a vowel already carrying a diacritic). -/
def runStop (b : Buf) (i : Nat) : Bool :=
  let ch := bufGetC b i
  (dtAttr ch).vowelIndex = 0 || (isAlphaV ch && !ch.isAlpha)

/-- Second scan of `put_tone_mark`: how many positions from `i` downward
(stopping at `lm`) the scan walks past, i.e. `end_pos - i_final` of the
source.  Entered with `lm ≤ i`. -/
def vowelRunLen (b : Buf) (lm : Nat) : Nat → Nat
  | 0 => if runStop b 0 then 0 else 1
  | i + 1 =>
    if runStop b (i + 1) then 0
    else if i + 1 ≤ lm then 1
    else 1 + vowelRunLen b lm i

/-- Selection of the target slot from the vowel run (`target_pos`), with
`endPos - runLen` playing the source's post-loop `i` (it is `-1` exactly
when `runLen = endPos + 1`). -/
def toneSelect (b : Buf) (modern : Bool) (keys endPos runLen : Nat) : Nat :=
  if runLen = 2 then
    if modern then
      let v1 := toLowerV (bufGetC b (endPos - 1))
      let v2 := toLowerV (bufGetC b endPos)
      if (v1 = 'o' ∧ v2 = 'a') ∨ (v1 = 'o' ∧ v2 = 'e') ∨
         (v1 = 'u' ∧ v2 = 'y') then endPos
      else
        if runLen ≤ endPos then
          let prev := toUpperV (bufGetC b (endPos - runLen))
          if prev = 'Q' ∨
             (prev = 'G' ∧ endPos - runLen + 1 < keys ∧
              toUpperV (bufGetC b (endPos - runLen + 1)) = 'I') then endPos
          else if keys > endPos + 1 then endPos
          else endPos - 1
        else endPos - 1
    else endPos - 1
  else if runLen = 3 then endPos - 1
  else endPos

/-- `left_most` of the first `put_tone_mark` scan (the source's i32
maximum coincides with the truncated Nat subtraction). -/
def toneLM (keysLen : Nat) (tnv : Bool) : Nat :=
  max (if tnv then keysLen - 1 else 0) (keysLen - 1 - MAX_AFTER_VOWEL)

/-- `left_most` of the vowel-run scan. -/
def runLM (endPos : Nat) (tnv : Bool) : Nat :=
  max (if tnv then endPos else 0) (endPos + 1 - MAX_VOWEL_SEQUENCE)

/-- The position `put_tone_mark` targets, or `none` when the routine
returns without acting before the vowel check at `target_pos`. -/
def toneTargetPos (b : Buf) (tnv modern : Bool) : Option Nat :=
  if b.length = 0 then none
  else
    let keys := b.length
    match findVowelScan b (toneLM keys tnv) (keys - 1) with
    | none => none
    | some i =>
      if (dtAttr (bufGetC b i)).vowelIndex = 0 then none
      else
        some (toneSelect b modern keys i (vowelRunLen b (runLM i tnv) i))

/-- Tail of `put_tone_mark` from the `target_pos` vowel check on. -/
def toneApplyAt (e : UnikeyEngine) (c : Char) (isLower : Bool)
    (toneIdx targetPos : Nat) : UnikeyEngine :=
  let keys := e.buf.length
  let vowelChar := bufGetC e.buf targetPos
  let vowelAttr := dtAttr vowelChar
  let vowelIdx := vowelAttr.vowelIndex
  if vowelIdx = 0 ∨ vowelIdx > 12 then e
  else if vowelAttr.currentTone = toneIdx then
    let base := bdGet (vowelIdx - 1) 5
    let newChar := if isUpperV vowelChar then toUpperV base else base
    let b1 := setCharAt e.buf targetPos newChar
    let e1 := { e with backs := keys - targetPos, buf := b1,
                       outputBuffer := rebuildFrom b1 targetPos ++ [c] }
    { putChar e1 c isLower with tempVietOff := true }
  else
    let base := getBaseVowel vowelChar
    let baseAttr := dtAttr base
    let baseIdx := if baseAttr.vowelIndex > 0 then baseAttr.vowelIndex
                   else vowelIdx
    if baseIdx = 0 ∨ baseIdx > 12 then e
    else
      let toned := bdGet (baseIdx - 1) (toneIdx - 1)
      let newChar := if isUpperV vowelChar then toUpperV toned else toned
      let b1 := setCharAt e.buf targetPos newChar
      { e with backs := keys - targetPos, buf := b1,
               outputBuffer := rebuildFrom b1 targetPos,
               keysPushed := (rebuildFrom b1 targetPos).length }

/-- The character written into the targeted slot by the tone-removal
branch of `put_tone_mark`: the base (tone-5) form of the vowel family,
uppercased when the slot held an uppercase vowel. -/
def toneRemovedChar (b : Buf) (p : Nat) : Char :=
  let vowelChar := bufGetC b p
  let base := bdGet ((dtAttr vowelChar).vowelIndex - 1) 5
  if isUpperV vowelChar then toUpperV base else base

/-- `put_tone_mark`. -/
def putToneMark (e : UnikeyEngine) (c : Char) (isLower : Bool) :
    UnikeyEngine :=
  if e.buf.length = 0 then e
  else
    match toneIndexOf c with
    | none => e
    | some toneIdx =>
      match toneTargetPos e.buf e.toneNextToVowel e.modernStyle with
      | none => e
      | some targetPos => toneApplyAt e c isLower toneIdx targetPos

/-- `short_key`. -/
def shortKey (e : UnikeyEngine) (c : Char) (isLower : Bool) :
    UnikeyEngine :=
  let newCharOpt : Option Char :=
    match toLowerV c with
    | 'w' => some (if isLower then 'ư' else 'Ư')
    | '[' => some 'ơ'
    | ']' => some 'Ơ'
    | _ => none
  match newCharOpt with
  | none => e
  | some newChar =>
    if e.buf.length > 0 ∧ bufGetC e.buf (e.buf.length - 1) = newChar then
      { e with backs := 1, buf := setCharAt e.buf (e.buf.length - 1) c,
               outputBuffer := [c], tempVietOff := true, keysPushed := 1 }
    else
      let e1 := { e with outputBuffer := [newChar], keysPushed := 1 }
      putChar e1 newChar isLower

/-- Result of processing a keypress (`ProcessResult`). -/
inductive ProcessResult
  | PassThrough (c : Char)
  | Output (text : List Char)
  | Replace (backspaces : Nat) (text : List Char)
deriving DecidableEq, Repr

/-- State-and-result pair returned by one `process` call. -/
structure ProcOut where
  state : UnikeyEngine
  result : ProcessResult
deriving DecidableEq, Repr

/-- Final dispatch of `process`: plain append and pass-through when no
transformation acted, otherwise `Replace` or `Output`. -/
def processFinish (e : UnikeyEngine) (c : Char) (isLower : Bool) : ProcOut :=
  if e.keysPushed = 0 ∧ e.backs = 0 then
    ⟨putChar e c isLower, ProcessResult.PassThrough c⟩
  else if e.backs > 0 then
    ⟨e, ProcessResult.Replace e.backs e.outputBuffer⟩
  else
    ⟨e, ProcessResult.Output e.outputBuffer⟩

/-- `process`. -/
def process (e0 : UnikeyEngine) (c : Char) : ProcOut :=
  let e := { e0 with keysPushed := 0, backs := 0, outputBuffer := [] }
  let isLower := isLowerV c
  if e.vietnameseMode = false then
    ⟨putChar e c isLower, ProcessResult.PassThrough c⟩
  else if e.tempVietOff = true then
    let e1 := if isAlphaV c = false then { e with tempVietOff := false } else e
    let e2 :=
      if keyCategory e1.inputMethod c = KeyCategory.Separator then
        if c = '\x08' then processBackspace e1 else clearBuf e1
      else putChar e1 c isLower
    ⟨e2, ProcessResult.PassThrough c⟩
  else
    match keyCategory e.inputMethod c with
    | KeyCategory.BreveMark =>
      if e.inputMethod = InputMethod.Telex ∧ e.lastWConverted = true ∧
         (c = 'w' ∨ c = 'W') then
        processFinish (shortKey e c isLower) c isLower
      else
        let ea := putBreveMark e c isLower
        if e.inputMethod = InputMethod.Telex ∧ ea.keysPushed = 0 ∧
           ea.backs = 0 ∧ (c = 'w' ∨ c = 'W') then
          processFinish { shortKey ea c isLower with lastWConverted := true }
            c isLower
        else processFinish ea c isLower
    | KeyCategory.DoubleKey => processFinish (doubleChar e c isLower) c isLower
    | KeyCategory.ToneMark => processFinish (putToneMark e c isLower) c isLower
    | KeyCategory.ShortKey => processFinish (shortKey e c isLower) c isLower
    | KeyCategory.Separator =>
      let e1 := if c = '\x08' then processBackspace e else clearBuf e
      ⟨{ e1 with lastWConverted := false }, ProcessResult.PassThrough c⟩
    | _ =>
      -- the remaining categories are never `BreveMark`, so the source's
      -- guarded reset of `last_w_converted` always fires here
      processFinish { e with lastWConverted := false } c isLower

/-- Fold `process` over a list of keypresses. -/
def runKeys (e : UnikeyEngine) : List Char → UnikeyEngine
  | [] => e
  | c :: cs => runKeys (process e c).state cs

/-- The on-screen characters currently buffered (`get_buffer`). -/
def bufferString (e : UnikeyEngine) : List Char :=
  e.buf.map Prod.fst

/-!
Helper lemmas shared by the claim theorems.
-/

/-- Backspace (0x08) is not in the DT table, so it is categorised `NoCat`
under every input method. -/
theorem keyCategory_backspace (im : InputMethod) :
    keyCategory im '\x08' = KeyCategory.NoCat := by
  have h : dtAttr '\x08' = {} := by decide
  simp [keyCategory, h, show ('\x08' : Char) ≠ '\\' by decide]

/-- Only the `is_separator` branch of `key_category` yields `Separator`. -/
theorem keyCategory_separator_isSeparator (im : InputMethod) (c : Char)
    (h : keyCategory im c = KeyCategory.Separator) :
    (dtAttr c).isSeparator = true := by
  by_cases hs : (dtAttr c).isSeparator = true
  · exact hs
  · exfalso
    unfold keyCategory at h
    simp [hs] at h
    split_ifs at h

/-- Every separator in the DT table is non-alphabetic. -/
theorem dt_separator_not_alpha (c : Char)
    (h : (dtAttr c).isSeparator = true) : isAlphaV c = false := by
  unfold dtAttr at h
  cases hf : dtList.find? (fun p => p.1 == c) with
  | none => rw [hf] at h; simp at h
  | some p =>
    rw [hf] at h
    simp at h
    have hmem : p ∈ dtList := List.mem_of_find?_eq_some hf
    have hpc : p.1 = c := by
      have hp := List.find?_some hf
      simpa using hp
    have hall : dtList.all
        (fun q => !q.2.isSeparator || !(isAlphaV q.1)) = true := by decide
    have hq := (List.all_eq_true.mp hall) p hmem
    simp [h] at hq
    rw [← hpc]
    simpa using hq

/-!
Claim theorems.
-/

/-- C1: the claim (and the spec's end-to-end table) says that a
diacritic-bearing vowel in the located run attracts the tone, so that a
fresh Telex engine processing d, d, a, a, y, s buffers "đấy".  The code
disagrees: the vowel-run scan of `put_tone_mark` breaks at the circumflex
vowel â and leaves it outside the run, so the acute tone lands on the
trailing y and the buffer is "đâý". -/
theorem C1_tone_lands_on_y_not_on_circumflex :
    bufferString (runKeys UnikeyEngine.new ['d', 'd', 'a', 'a', 'y', 's'])
      = ['đ', 'â', 'ý'] ∧
    bufferString (runKeys UnikeyEngine.new ['d', 'd', 'a', 'a', 'y', 's'])
      ≠ ['đ', 'ấ', 'y'] := by
  decide

/-- C2: the claim says a, a, a leaves the buffer "aa" with the
`temp_disabled` latch set (the double-char escape).  The code disagrees:
after aa has produced â, the guard `last_lower != c_lower` of
`double_char` compares â with a and returns without acting, so the third
a is appended literally, the buffer is "âa", the latch stays clear, and
the call passes the a through. -/
theorem C2_aaa_appends_literal_a_without_escape :
    bufferString (runKeys UnikeyEngine.new ['a', 'a', 'a']) = ['â', 'a'] ∧
    (runKeys UnikeyEngine.new ['a', 'a', 'a']).tempVietOff = false ∧
    (process (runKeys UnikeyEngine.new ['a', 'a']) 'a').result
      = ProcessResult.PassThrough 'a' := by
  decide

/-- C7: the claim says processing backspace (0x08) pops the buffer tail
and returns `PassThrough`.  The code disagrees: 0x08 was never inserted
into the DT table's separator set, so `key_category` classifies it
`NoCat`, the `c == '\x08'` pop branch of `process` is unreachable, and
the backspace character is appended to the buffer instead. -/
theorem C7_backspace_is_appended_not_popped :
    (process (runKeys UnikeyEngine.new ['b']) '\x08').state.buf
      = [('b', true), ('\x08', false)] ∧
    (process (runKeys UnikeyEngine.new ['b']) '\x08').result
      = ProcessResult.PassThrough '\x08' := by
  decide

/-- C9: the claim says '[' produces the stand-alone ơ and ']' produces Ơ.
The code disagrees: both brackets are inserted into the DT table as
separators and never receive a `macro_index`, so `key_category` labels
them `Separator`, the buffer is cleared, the key passes through, and the
bracket arms of `short_key` are unreachable. -/
theorem C9_brackets_are_separators_not_shortcuts :
    keyCategory UnikeyEngine.new.inputMethod '[' = KeyCategory.Separator ∧
    (process UnikeyEngine.new '[').result = ProcessResult.PassThrough '[' ∧
    (process UnikeyEngine.new '[').state.buf = [] ∧
    keyCategory UnikeyEngine.new.inputMethod ']' = KeyCategory.Separator ∧
    (process UnikeyEngine.new ']').result = ProcessResult.PassThrough ']' ∧
    (process UnikeyEngine.new ']').state.buf = [] := by
  decide

/-- C6 counterexample: the claim says the `temp_disabled` latch is
cleared exactly by the next separator and that every non-separator
keypress leaves it set.  After a, s, s the latch is set, and the
non-separator backspace character 0x08 clears it. -/
theorem C6_counterexample_backspace_clears_latch :
    (runKeys UnikeyEngine.new ['a', 's', 's']).tempVietOff = true ∧
    (dtAttr '\x08').isSeparator = false ∧
    keyCategory (runKeys UnikeyEngine.new ['a', 's', 's']).inputMethod '\x08'
      ≠ KeyCategory.Separator ∧
    (process (runKeys UnikeyEngine.new ['a', 's', 's']) '\x08').state.tempVietOff
      = false := by
  decide

/-- C4: in Vietnamese mode — whether or not the `temp_disabled` latch is
set — processing any character the engine classifies as a separator
returns `PassThrough` of that character and leaves the buffer empty. -/
theorem C4_separator_passthrough_empty_buffer (e : UnikeyEngine) (c : Char)
    (hm : e.vietnameseMode = true)
    (hsep : keyCategory e.inputMethod c = KeyCategory.Separator) :
    (process e c).result = ProcessResult.PassThrough c ∧
    (process e c).state.buf = [] := by
  have hbs : c ≠ '\x08' := by
    intro hc
    rw [hc, keyCategory_backspace] at hsep
    cases hsep
  by_cases ht : e.tempVietOff = true
  · by_cases ha : isAlphaV c = false
    · simp [process, hm, ht, ha, hsep, hbs, clearBuf]
    · simp [process, hm, ht, ha, hsep, hbs, clearBuf]
  · simp [process, hm, ht, hsep, hbs, clearBuf]

/-- C4 witness: a space after typing n, a, m passes through and empties
the buffer. -/
theorem C4_witness_space_after_nam :
    (process (runKeys UnikeyEngine.new ['n', 'a', 'm']) ' ').result
      = ProcessResult.PassThrough ' ' ∧
    (process (runKeys UnikeyEngine.new ['n', 'a', 'm']) ' ').state.buf
      = [] :=
  C4_separator_passthrough_empty_buffer _ ' ' (by decide) (by decide)

/-- C6 amended: while the `temp_disabled` latch is set in Vietnamese
mode, every call to `process` returns `PassThrough` of the input; the
latch is cleared exactly by the next non-alphabetic character — in
particular by every separator, which also resets the buffer — and every
alphabetic keypress leaves the latch set. -/
theorem C6_amended_latch_cleared_by_nonalpha (e : UnikeyEngine) (c : Char)
    (hm : e.vietnameseMode = true) (ht : e.tempVietOff = true) :
    (process e c).result = ProcessResult.PassThrough c ∧
    (process e c).state.tempVietOff = isAlphaV c ∧
    (keyCategory e.inputMethod c = KeyCategory.Separator →
      (process e c).state.buf = []) := by
  cases ha : isAlphaV c with
  | false =>
    by_cases hc : keyCategory e.inputMethod c = KeyCategory.Separator
    · have hbs : c ≠ '\x08' := by
        intro hcc
        rw [hcc, keyCategory_backspace] at hc
        cases hc
      simp [process, hm, ht, ha, hc, hbs, clearBuf]
    · simp [process, hm, ht, ha, hc, putChar]
  | true =>
    have hc : ¬ keyCategory e.inputMethod c = KeyCategory.Separator := by
      intro hh
      have hs := dt_separator_not_alpha c
        (keyCategory_separator_isSeparator e.inputMethod c hh)
      rw [ha] at hs
      cases hs
    simp [process, hm, ht, ha, hc, putChar]

/-- C6 amended witness: after a, s, s the latch is set; a following
alphabetic b passes through and leaves the latch set. -/
theorem C6_amended_witness_alpha_keeps_latch :
    (process (runKeys UnikeyEngine.new ['a', 's', 's']) 'b').result
      = ProcessResult.PassThrough 'b' ∧
    (process (runKeys UnikeyEngine.new ['a', 's', 's']) 'b').state.tempVietOff
      = isAlphaV 'b' ∧
    (keyCategory (runKeys UnikeyEngine.new ['a', 's', 's']).inputMethod 'b'
        = KeyCategory.Separator →
      (process (runKeys UnikeyEngine.new ['a', 's', 's']) 'b').state.buf
        = []) :=
  C6_amended_latch_cleared_by_nonalpha _ 'b' (by decide) (by decide)

/-- The first tone scan never returns a position above its start. -/
theorem findVowelScan_le (b : Buf) (lm : Nat) :
    ∀ i j, findVowelScan b lm i = some j → j ≤ i := by
  intro i
  induction i with
  | zero =>
    intro j h
    unfold findVowelScan at h
    by_cases hs : toneStop b 0 = true
    · rw [if_pos hs] at h
      injection h with h
      omega
    · rw [if_neg hs] at h
      exact Option.noConfusion h
  | succ n ih =>
    intro j h
    unfold findVowelScan at h
    by_cases hs : toneStop b (n + 1) = true
    · rw [if_pos hs] at h
      injection h with h
      omega
    · rw [if_neg hs] at h
      by_cases hl : n + 1 ≤ lm
      · rw [if_pos hl] at h
        exact Option.noConfusion h
      · rw [if_neg hl] at h
        have := ih j h
        omega

/-- The selected target slot never lies right of the located vowel. -/
theorem toneSelect_le (b : Buf) (m : Bool) (keys ep rl : Nat) :
    toneSelect b m keys ep rl ≤ ep := by
  unfold toneSelect
  dsimp only
  split_ifs <;> omega

/-- A returned tone target is a position inside the live buffer, so the
`keys - target_pos` subtractions of `put_tone_mark` cannot underflow. -/
theorem toneTargetPos_lt (b : Buf) (tnv m : Bool) (p : Nat)
    (h : toneTargetPos b tnv m = some p) : p < b.length := by
  unfold toneTargetPos at h
  split at h
  · cases h
  · rename_i hlen
    dsimp only at h
    split at h
    · cases h
    · rename_i i hscan
      split at h
      · cases h
      · injection h with h
        have h1 := findVowelScan_le b (toneLM b.length tnv) (b.length - 1) i
          hscan
        have h2 := toneSelect_le b m b.length i
          (vowelRunLen b (runLM i tnv) i)
        omega

/-- In Vietnamese mode with the latch clear, a key categorised `ToneMark`
routes `process` through `put_tone_mark` and the final dispatch. -/
theorem process_toneMark_eq (e : UnikeyEngine) (c : Char)
    (hm : e.vietnameseMode = true) (ht : e.tempVietOff = false)
    (hcat : keyCategory e.inputMethod c = KeyCategory.ToneMark) :
    process e c =
      processFinish
        (putToneMark
          { e with keysPushed := 0, backs := 0, outputBuffer := [] } c
          (isLowerV c)) c (isLowerV c) := by
  unfold process
  dsimp only
  rw [if_neg (by simp [hm]), if_neg (by simp [ht]), hcat]

/-- A positive `backs` makes the final dispatch emit `Replace`. -/
theorem processFinish_replace (e : UnikeyEngine) (c : Char) (l : Bool)
    (h : 0 < e.backs) :
    processFinish e c l =
      ⟨e, ProcessResult.Replace e.backs e.outputBuffer⟩ := by
  unfold processFinish
  rw [if_neg (by intro hc; omega), if_pos h]

/-- Tone-removal branch of `put_tone_mark`: when the targeted vowel
already carries the requested tone, the slot is rewritten with the base
vowel (case preserved), `backs` spans from the slot to the tail, the
output is the rebuilt tail plus the literal trigger, the trigger is
appended to the buffer and `temp_viet_off` is latched. -/
theorem putToneMark_remove (e : UnikeyEngine) (c : Char) (l : Bool)
    (t p : Nat)
    (htone : toneIndexOf c = some t)
    (hpos : toneTargetPos e.buf e.toneNextToVowel e.modernStyle = some p)
    (hvi1 : 0 < (dtAttr (bufGetC e.buf p)).vowelIndex)
    (hvi2 : (dtAttr (bufGetC e.buf p)).vowelIndex ≤ 12)
    (hcur : (dtAttr (bufGetC e.buf p)).currentTone = t) :
    putToneMark e c l =
      { putChar
          { e with backs := e.buf.length - p,
                   buf := setCharAt e.buf p (toneRemovedChar e.buf p),
                   outputBuffer :=
                     rebuildFrom
                       (setCharAt e.buf p (toneRemovedChar e.buf p)) p
                       ++ [c] }
          c l
        with tempVietOff := true } := by
  have hplen := toneTargetPos_lt _ _ _ _ hpos
  unfold putToneMark
  rw [if_neg (by omega)]
  rw [htone, hpos]
  dsimp only
  unfold toneApplyAt
  dsimp only
  rw [if_neg (by omega), if_pos hcur]
  rfl

/-- C3: in Telex Vietnamese mode (latch clear), whenever the tone trigger
`c` with slot `t` targets buffer position `p` holding a vowel whose
current tone is already `t`, `process` rewrites that slot with the base
vowel of its family (case preserved), latches `temp_disabled`, appends
the literal trigger, and returns a `Replace` whose text is the rebuilt
tail (now ending in the base vowel at the targeted slot) followed by the
literal trigger character. -/
theorem C3_repeated_tone_trigger_escapes (e : UnikeyEngine) (c : Char)
    (t p : Nat)
    (hm : e.vietnameseMode = true)
    (ht : e.tempVietOff = false)
    (hcat : keyCategory e.inputMethod c = KeyCategory.ToneMark)
    (htone : toneIndexOf c = some t)
    (hpos : toneTargetPos e.buf e.toneNextToVowel e.modernStyle = some p)
    (hvi1 : 0 < (dtAttr (bufGetC e.buf p)).vowelIndex)
    (hvi2 : (dtAttr (bufGetC e.buf p)).vowelIndex ≤ 12)
    (hcur : (dtAttr (bufGetC e.buf p)).currentTone = t) :
    (process e c).result =
      ProcessResult.Replace (e.buf.length - p)
        (rebuildFrom (setCharAt e.buf p (toneRemovedChar e.buf p)) p
          ++ [c]) ∧
    (process e c).state.tempVietOff = true ∧
    (process e c).state.buf =
      putCharB (setCharAt e.buf p (toneRemovedChar e.buf p)) c
        (isLowerV c) := by
  have hplen := toneTargetPos_lt _ _ _ _ hpos
  have hpt := putToneMark_remove
    { e with keysPushed := 0, backs := 0, outputBuffer := [] } c
    (isLowerV c) t p htone hpos hvi1 hvi2 hcur
  rw [process_toneMark_eq e c hm ht hcat, hpt,
    processFinish_replace _ _ _ (Nat.sub_pos_of_lt hplen)]
  exact ⟨rfl, rfl, rfl⟩

/-- C3 witness: after a, s the buffer holds á; a second s removes the
tone, latches the engine off, and replaces the vowel span with "as". -/
theorem C3_witness_ass :
    (process (runKeys UnikeyEngine.new ['a', 's']) 's').result =
      ProcessResult.Replace
        ((runKeys UnikeyEngine.new ['a', 's']).buf.length - 0)
        (rebuildFrom
          (setCharAt (runKeys UnikeyEngine.new ['a', 's']).buf 0
            (toneRemovedChar (runKeys UnikeyEngine.new ['a', 's']).buf 0)) 0
          ++ ['s']) ∧
    (process (runKeys UnikeyEngine.new ['a', 's']) 's').state.tempVietOff
      = true ∧
    (process (runKeys UnikeyEngine.new ['a', 's']) 's').state.buf =
      putCharB
        (setCharAt (runKeys UnikeyEngine.new ['a', 's']).buf 0
          (toneRemovedChar (runKeys UnikeyEngine.new ['a', 's']).buf 0)) 's'
        (isLowerV 's') :=
  C3_repeated_tone_trigger_escapes _ 's' 1 0 (by decide) (by decide)
    (by decide) (by decide) (by decide) (by decide) (by decide) (by decide)

/-- When no position of the scan window stops the first tone scan, it
reports no vowel. -/
theorem findVowelScan_none (b : Buf) (lm : Nat) :
    ∀ i, lm ≤ i → (∀ j, lm ≤ j → j ≤ i → toneStop b j = false) →
      findVowelScan b lm i = none := by
  intro i
  induction i with
  | zero =>
    intro h0 hall
    unfold findVowelScan
    rw [hall 0 (by omega) (by omega)]
    simp
  | succ n ih =>
    intro hle hall
    unfold findVowelScan
    rw [hall (n + 1) (by omega) (by omega)]
    by_cases hl : n + 1 ≤ lm
    · simp [hl]
    · simp only [Bool.false_eq_true, if_false, hl]
      exact ih (by omega) (fun j h1 h2 => hall j h1 (by omega))

/-- When no vowel, separator or soft separator lies in the
`MAX_AFTER_VOWEL` window left of the tail, `put_tone_mark` finds no
target. -/
theorem toneTargetPos_none_of (b : Buf) (tnv m : Bool)
    (hnov : ∀ j, j < b.length → b.length ≤ j + 1 + MAX_AFTER_VOWEL →
      toneStop b j = false) :
    toneTargetPos b tnv m = none := by
  unfold toneTargetPos
  split
  · rfl
  · rename_i hlen
    dsimp only
    have hlm : toneLM b.length tnv ≤ b.length - 1 := by
      unfold toneLM
      cases tnv <;> simp <;> omega
    have hwin : toneLM b.length tnv ≥ b.length - 1 - MAX_AFTER_VOWEL := by
      unfold toneLM
      omega
    have hscan : findVowelScan b (toneLM b.length tnv) (b.length - 1)
        = none := by
      apply findVowelScan_none b _ _ hlm
      intro j h1 h2
      refine hnov j (by omega) ?hj
      unfold MAX_AFTER_VOWEL at hwin ⊢
      omega
    rw [hscan]

/-- `put_tone_mark` leaves the engine untouched when it finds no
target. -/
theorem putToneMark_noTarget (e : UnikeyEngine) (c : Char) (l : Bool)
    (h : toneTargetPos e.buf e.toneNextToVowel e.modernStyle = none) :
    putToneMark e c l = e := by
  unfold putToneMark
  split
  · rfl
  · cases htone : toneIndexOf c
    · rfl
    · rw [h]

/-- When no transformation acted, `process` falls through to plain
append plus pass-through. -/
theorem processFinish_zero (e : UnikeyEngine) (c : Char) (l : Bool)
    (h1 : e.keysPushed = 0) (h2 : e.backs = 0) :
    processFinish e c l = ⟨putChar e c l, ProcessResult.PassThrough c⟩ := by
  unfold processFinish
  rw [if_pos ⟨h1, h2⟩]

/-- C8: in Telex Vietnamese mode (latch clear), a tone trigger arriving
when no vowel (and no separator) lies within `MAX_AFTER_VOWEL` positions
of the buffer tail degrades to pass-through: the literal trigger is
appended to the buffer (by the engine's append operation, which compacts
first when the buffer is full) and the call returns `PassThrough`. -/
theorem C8_tone_trigger_without_vowel_passes_through (e : UnikeyEngine)
    (c : Char)
    (hm : e.vietnameseMode = true)
    (ht : e.tempVietOff = false)
    (hcat : keyCategory e.inputMethod c = KeyCategory.ToneMark)
    (hnov : ∀ j, j < e.buf.length →
      e.buf.length ≤ j + 1 + MAX_AFTER_VOWEL → toneStop e.buf j = false) :
    (process e c).result = ProcessResult.PassThrough c ∧
    (process e c).state.buf = putCharB e.buf c (isLowerV c) := by
  have htp : toneTargetPos e.buf e.toneNextToVowel e.modernStyle = none :=
    toneTargetPos_none_of e.buf _ _ hnov
  have hpt := putToneMark_noTarget
    { e with keysPushed := 0, backs := 0, outputBuffer := [] } c
    (isLowerV c) htp
  rw [process_toneMark_eq e c hm ht hcat, hpt,
    processFinish_zero _ _ _ rfl rfl]
  exact ⟨rfl, rfl⟩

/-- C8 witness: with buffer b, c, d the tone key s finds no vowel and is
buffered literally. -/
theorem C8_witness_bcds :
    (process (runKeys UnikeyEngine.new ['b', 'c', 'd']) 's').result
      = ProcessResult.PassThrough 's' ∧
    (process (runKeys UnikeyEngine.new ['b', 'c', 'd']) 's').state.buf
      = putCharB (runKeys UnikeyEngine.new ['b', 'c', 'd']).buf 's'
          (isLowerV 's') :=
  C8_tone_trigger_without_vowel_passes_through _ 's' (by decide) (by decide)
    (by decide) (by decide)

/-- One `put_char` append keeps the buffer within `KEY_BUFSIZE`. -/
theorem length_putCharB (b : Buf) (c : Char) (l : Bool)
    (h : b.length ≤ KEY_BUFSIZE) :
    (putCharB b c l).length ≤ KEY_BUFSIZE := by
  unfold putCharB throwBuf KEY_BUFSIZE KEYS_MAINTAIN
  unfold KEY_BUFSIZE at h
  split_ifs <;> simp <;> omega

/-- Rewriting one slot does not change the buffer length. -/
theorem length_setCharAt (b : Buf) (i : Nat) (c : Char) :
    (setCharAt b i c).length = b.length := by
  unfold setCharAt
  simp

/-- `put_breve_mark` keeps the buffer within capacity. -/
theorem putBreveMark_len (e : UnikeyEngine) (c : Char) (l : Bool)
    (h : e.buf.length ≤ KEY_BUFSIZE) :
    (putBreveMark e c l).buf.length ≤ KEY_BUFSIZE := by
  unfold putBreveMark
  dsimp only
  repeat' split
  all_goals try dsimp only [putChar]
  all_goals
    first
      | exact h
      | (apply length_putCharB
         rw [length_setCharAt]
         exact h)
      | (rw [length_setCharAt]
         exact h)

/-- `double_char` keeps the buffer within capacity. -/
theorem doubleChar_len (e : UnikeyEngine) (c : Char) (l : Bool)
    (h : e.buf.length ≤ KEY_BUFSIZE) :
    (doubleChar e c l).buf.length ≤ KEY_BUFSIZE := by
  unfold doubleChar
  dsimp only
  repeat' split
  all_goals try dsimp only [putChar]
  all_goals
    first
      | exact h
      | (apply length_putCharB
         rw [length_setCharAt]
         exact h)
      | (rw [length_setCharAt]
         exact h)

/-- The tail of `put_tone_mark` keeps the buffer within capacity. -/
theorem toneApplyAt_len (e : UnikeyEngine) (c : Char) (l : Bool)
    (t p : Nat) (h : e.buf.length ≤ KEY_BUFSIZE) :
    (toneApplyAt e c l t p).buf.length ≤ KEY_BUFSIZE := by
  unfold toneApplyAt
  dsimp only
  repeat' split
  all_goals try dsimp only [putChar]
  all_goals
    first
      | exact h
      | (apply length_putCharB
         rw [length_setCharAt]
         exact h)
      | (rw [length_setCharAt]
         exact h)

/-- `put_tone_mark` keeps the buffer within capacity. -/
theorem putToneMark_len (e : UnikeyEngine) (c : Char) (l : Bool)
    (h : e.buf.length ≤ KEY_BUFSIZE) :
    (putToneMark e c l).buf.length ≤ KEY_BUFSIZE := by
  unfold putToneMark
  repeat' split
  all_goals first | exact h | exact toneApplyAt_len _ _ _ _ _ h

/-- `short_key` keeps the buffer within capacity. -/
theorem shortKey_len (e : UnikeyEngine) (c : Char) (l : Bool)
    (h : e.buf.length ≤ KEY_BUFSIZE) :
    (shortKey e c l).buf.length ≤ KEY_BUFSIZE := by
  unfold shortKey
  dsimp only
  repeat' split
  all_goals try dsimp only [putChar]
  all_goals
    first
      | exact h
      | exact length_putCharB _ _ _ h
      | (rw [length_setCharAt]
         exact h)

/-- `process_backspace` never grows the buffer. -/
theorem processBackspace_len (e : UnikeyEngine) :
    (processBackspace e).buf.length ≤ e.buf.length := by
  unfold processBackspace
  split
  · simp [List.length_dropLast]
  · exact Nat.le_refl _

/-- The final dispatch keeps the buffer within capacity. -/
theorem processFinish_len (e : UnikeyEngine) (c : Char) (l : Bool)
    (h : e.buf.length ≤ KEY_BUFSIZE) :
    ((processFinish e c l).state).buf.length ≤ KEY_BUFSIZE := by
  unfold processFinish
  split_ifs
  all_goals try dsimp only [putChar]
  all_goals first | exact length_putCharB _ _ _ h | exact h

/-- One `process` call keeps the buffer within capacity. -/
theorem process_len (e : UnikeyEngine) (c : Char)
    (h : e.buf.length ≤ KEY_BUFSIZE) :
    ((process e c).state).buf.length ≤ KEY_BUFSIZE := by
  unfold process
  dsimp only
  split
  · exact length_putCharB _ _ _ h
  · split
    · dsimp only
      repeat' split
      all_goals try dsimp only [putChar]
      all_goals
        first
          | exact length_putCharB _ _ _ h
          | simp [clearBuf]
          | exact Nat.le_trans (processBackspace_len _) h
    · split
      · -- BreveMark arm
        split
        · exact processFinish_len _ _ _ (shortKey_len _ _ _ h)
        · split
          · exact processFinish_len _ _ _
              (shortKey_len _ _ _ (putBreveMark_len _ _ _ h))
          · exact processFinish_len _ _ _ (putBreveMark_len _ _ _ h)
      · exact processFinish_len _ _ _ (doubleChar_len _ _ _ h)
      · exact processFinish_len _ _ _ (putToneMark_len _ _ _ h)
      · exact processFinish_len _ _ _ (shortKey_len _ _ _ h)
      · -- Separator arm
        dsimp only
        repeat' split
        all_goals
          first
            | simp [clearBuf]
            | exact Nat.le_trans (processBackspace_len _) h
      · exact processFinish_len _ _ _ h

/-- Any run of keypresses keeps the buffer within capacity. -/
theorem runKeys_len (cs : List Char) :
    ∀ e : UnikeyEngine, e.buf.length ≤ KEY_BUFSIZE →
      (runKeys e cs).buf.length ≤ KEY_BUFSIZE := by
  induction cs with
  | nil => intro e h; exact h
  | cons c cs ih => intro e h; exact ih _ (process_len e c h)

/-- C5: starting from the fresh engine, no sequence of `process` calls
ever pushes the buffer above `KEY_BUFSIZE` keys, and an append at
capacity first compacts the buffer to its most recent `KEYS_MAINTAIN`
characters (so the slot written and the slots read stay in bounds). -/
theorem C5_buffer_never_exceeds_capacity :
    (∀ cs : List Char,
      (runKeys UnikeyEngine.new cs).buf.length ≤ KEY_BUFSIZE) ∧
    (∀ (b : Buf) (c : Char) (l : Bool), b.length = KEY_BUFSIZE →
      putCharB b c l
        = b.drop (KEY_BUFSIZE - KEYS_MAINTAIN) ++ [(c, l)]) := by
  constructor
  · intro cs
    refine runKeys_len cs UnikeyEngine.new ?h0
    simp [UnikeyEngine.new, KEY_BUFSIZE]
  · intro b c l hb
    unfold putCharB throwBuf KEY_BUFSIZE KEYS_MAINTAIN
    unfold KEY_BUFSIZE at hb
    rw [if_pos (by omega), if_pos (by omega), hb]

/-- C5 witness: a full 40-slot buffer compacts to its last 20 entries on
append, and a short run stays within capacity. -/
theorem C5_witness_full_buffer_compacts :
    putCharB (List.replicate KEY_BUFSIZE ('b', true)) 's' true
      = (List.replicate KEY_BUFSIZE ('b', true)).drop
          (KEY_BUFSIZE - KEYS_MAINTAIN) ++ [('s', true)] ∧
    (runKeys UnikeyEngine.new ['x', 'i', 'n']).buf.length ≤ KEY_BUFSIZE :=
  ⟨C5_buffer_never_exceeds_capacity.2 _ 's' true (by decide),
   C5_buffer_never_exceeds_capacity.1 ['x', 'i', 'n']⟩

/-- One step of the breve scan either acts at its own position or defers
to the rest of the scan. -/
theorem breveStep_pos (b : Buf) (low : Bool) (i : Nat) (next : BreveScan)
    (p : Nat) (h : breveScanPos (breveStep b low i next) = some p) :
    p = i ∨ breveScanPos next = some p := by
  unfold breveStep at h
  dsimp only at h
  split at h
  · split at h
    · right
      exact h
    · split at h
      · dsimp only [breveScanPos] at h
        injection h with h
        omega
      · dsimp only [breveScanPos] at h
        injection h with h
        omega
  · split at h
    · dsimp only [breveScanPos] at h
      exact Option.noConfusion h
    · right
      exact h

/-- The breve scan never acts right of its start position, so the
`keys - i` subtraction of `put_breve_mark` cannot underflow. -/
theorem breveScanPos_le (b : Buf) (low : Bool) (lm : Nat) :
    ∀ i p, breveScanPos (breveScan b low lm i) = some p → p ≤ i := by
  intro i
  induction i with
  | zero =>
    intro p h
    unfold breveScan at h
    rcases breveStep_pos b low 0 _ p h with h1 | h1
    · omega
    · dsimp only [breveScanPos] at h1
      exact Option.noConfusion h1
  | succ n ih =>
    intro p h
    unfold breveScan at h
    rcases breveStep_pos b low (n + 1) _ p h with h1 | h1
    · omega
    · by_cases hl : n + 1 ≤ lm
      · rw [if_pos hl] at h1
        dsimp only [breveScanPos] at h1
        exact Option.noConfusion h1
      · rw [if_neg hl] at h1
        have := ih p h1
        omega

/-- `put_breve_mark` keeps `backs` within the buffer length. -/
theorem putBreveMark_backs_le (e : UnikeyEngine) (c : Char) (l : Bool)
    (h : e.backs ≤ e.buf.length) :
    (putBreveMark e c l).backs ≤ e.buf.length := by
  unfold putBreveMark
  dsimp only
  repeat' split
  all_goals try dsimp only [putChar]
  all_goals first | exact h | exact Nat.sub_le _ _

/-- A `put_breve_mark` call that reports `backs = 0` did not act. -/
theorem putBreveMark_eq_of_backs_zero (e : UnikeyEngine) (c : Char)
    (l : Bool) (hb : e.backs = 0)
    (h : (putBreveMark e c l).backs = 0) :
    putBreveMark e c l = e := by
  by_cases h0 : e.buf.length = 0
  · unfold putBreveMark
    rw [if_pos h0]
  · cases hscan : breveScan e.buf l (breveLM e.buf.length e.freeMarking)
      (e.buf.length - 1) with
    | noHit =>
      unfold putBreveMark
      rw [if_neg h0]
      dsimp only
      rw [hscan]
    | undo i bv =>
      exfalso
      have hle : i ≤ e.buf.length - 1 :=
        breveScanPos_le e.buf l (breveLM e.buf.length e.freeMarking)
          (e.buf.length - 1) i (by rw [hscan]; rfl)
      unfold putBreveMark at h
      rw [if_neg h0] at h
      dsimp only at h
      rw [hscan] at h
      dsimp only [putChar] at h
      omega
    | apply i nc =>
      exfalso
      have hle : i ≤ e.buf.length - 1 :=
        breveScanPos_le e.buf l (breveLM e.buf.length e.freeMarking)
          (e.buf.length - 1) i (by rw [hscan]; rfl)
      unfold putBreveMark at h
      rw [if_neg h0] at h
      dsimp only at h
      rw [hscan] at h
      dsimp only at h
      omega

/-- `double_char` keeps `backs` within the buffer length. -/
theorem doubleChar_backs_le (e : UnikeyEngine) (c : Char) (l : Bool)
    (h : e.backs ≤ e.buf.length) :
    (doubleChar e c l).backs ≤ e.buf.length := by
  unfold doubleChar
  dsimp only
  repeat' split
  all_goals try dsimp only [putChar]
  all_goals first | exact h | omega

/-- The tail of `put_tone_mark` keeps `backs` within the buffer
length. -/
theorem toneApplyAt_backs_le (e : UnikeyEngine) (c : Char) (l : Bool)
    (t p : Nat) (h : e.backs ≤ e.buf.length) :
    (toneApplyAt e c l t p).backs ≤ e.buf.length := by
  unfold toneApplyAt
  dsimp only
  repeat' split
  all_goals try dsimp only [putChar]
  all_goals first | exact h | exact Nat.sub_le _ _

/-- `put_tone_mark` keeps `backs` within the buffer length. -/
theorem putToneMark_backs_le (e : UnikeyEngine) (c : Char) (l : Bool)
    (h : e.backs ≤ e.buf.length) :
    (putToneMark e c l).backs ≤ e.buf.length := by
  unfold putToneMark
  repeat' split
  all_goals first | exact h | exact toneApplyAt_backs_le _ _ _ _ _ h

/-- `short_key` keeps `backs` within the buffer length. -/
theorem shortKey_backs_le (e : UnikeyEngine) (c : Char) (l : Bool)
    (h : e.backs ≤ e.buf.length) :
    (shortKey e c l).backs ≤ e.buf.length := by
  unfold shortKey
  dsimp only
  repeat' split
  all_goals try dsimp only [putChar]
  all_goals first | exact h | omega

/-- A `Replace` out of the final dispatch deletes exactly `backs`
characters. -/
theorem processFinish_result_replace (e : UnikeyEngine) (c : Char)
    (l : Bool) (n : Nat) (t : List Char)
    (h : (processFinish e c l).result = ProcessResult.Replace n t) :
    n = e.backs := by
  unfold processFinish at h
  split_ifs at h
  all_goals try dsimp only at h
  all_goals
    first
      | exact ProcessResult.noConfusion h
      | (injection h with h1 h2
         exact h1.symm)

/-- Whenever `process` returns `Replace`, the deletion count is bounded
by the number of characters buffered before the call. -/
theorem process_replace_backs_le (e : UnikeyEngine) (c : Char) (n : Nat)
    (t : List Char)
    (h : (process e c).result = ProcessResult.Replace n t) :
    n ≤ e.buf.length := by
  unfold process at h
  dsimp only at h
  split at h
  · exact ProcessResult.noConfusion h
  · split at h
    · exact ProcessResult.noConfusion h
    · split at h
      · -- BreveMark arm
        split at h
        · have hn := processFinish_result_replace _ _ _ _ _ h
          have hle := shortKey_backs_le
            { e with keysPushed := 0, backs := 0, outputBuffer := [] } c
            (isLowerV c) (Nat.zero_le _)
          exact hn ▸ hle
        · split at h
          · rename_i hcond
            have hz : (putBreveMark { e with keysPushed := 0, backs := 0, outputBuffer := [] } c (isLowerV c)).backs = 0 := hcond.2.2.1
            have heq := putBreveMark_eq_of_backs_zero
              { e with keysPushed := 0, backs := 0, outputBuffer := [] } c
              (isLowerV c) rfl hz
            rw [heq] at h
            have hn := processFinish_result_replace _ _ _ _ _ h
            have hle := shortKey_backs_le
              { e with keysPushed := 0, backs := 0, outputBuffer := [] } c
              (isLowerV c) (Nat.zero_le _)
            exact hn ▸ hle
          · have hn := processFinish_result_replace _ _ _ _ _ h
            have hle := putBreveMark_backs_le
              { e with keysPushed := 0, backs := 0, outputBuffer := [] } c
              (isLowerV c) (Nat.zero_le _)
            exact hn ▸ hle
      · have hn := processFinish_result_replace _ _ _ _ _ h
        have hle := doubleChar_backs_le
          { e with keysPushed := 0, backs := 0, outputBuffer := [] } c
          (isLowerV c) (Nat.zero_le _)
        exact hn ▸ hle
      · have hn := processFinish_result_replace _ _ _ _ _ h
        have hle := putToneMark_backs_le
          { e with keysPushed := 0, backs := 0, outputBuffer := [] } c
          (isLowerV c) (Nat.zero_le _)
        exact hn ▸ hle
      · have hn := processFinish_result_replace _ _ _ _ _ h
        have hle := shortKey_backs_le
          { e with keysPushed := 0, backs := 0, outputBuffer := [] } c
          (isLowerV c) (Nat.zero_le _)
        exact hn ▸ hle
      · exact ProcessResult.noConfusion h
      · have hn := processFinish_result_replace _ _ _ _ _ h
        exact hn ▸ Nat.zero_le _

/-- C10: for every engine state and input, a `Replace{backspaces := n}`
result of `process` satisfies `n ≤` the number of buffered characters
before the call; moreover the tone target and the breve-scan position
always lie inside the buffer (resp. below the scan start), so the
`keys - position` subtractions computing `backs` never underflow. -/
theorem C10_replace_never_exceeds_buffer :
    (∀ (e : UnikeyEngine) (c : Char) (n : Nat) (t : List Char),
      (process e c).result = ProcessResult.Replace n t →
        n ≤ e.buf.length) ∧
    (∀ (b : Buf) (tnv m : Bool) (p : Nat),
      toneTargetPos b tnv m = some p → p < b.length) ∧
    (∀ (b : Buf) (low : Bool) (lm i p : Nat),
      breveScanPos (breveScan b low lm i) = some p → p ≤ i) :=
  ⟨process_replace_backs_le, toneTargetPos_lt,
   fun b low lm i p h => breveScanPos_le b low lm i p h⟩

/-- C10 witness: after m, o the third o yields `Replace 1 "ô"` and the
bound holds; concrete tone-target and breve-scan instances. -/
theorem C10_witness_moo :
    1 ≤ (runKeys UnikeyEngine.new ['m', 'o']).buf.length ∧
    (0 : Nat) < [('á', true)].length ∧
    (0 : Nat) ≤ 0 :=
  ⟨C10_replace_never_exceeds_buffer.1 _ 'o' 1 ['ô'] (by decide),
   C10_replace_never_exceeds_buffer.2.1 [('á', true)] false true 0
     (by decide),
   C10_replace_never_exceeds_buffer.2.2 [('a', true)] true 0 0 0
     (by decide)⟩

end Vaixkey

